import Mathlib

/-!
Verification of the arduino-projekt-backend data service
(`src/services/data.ts`): the time-window resolver, the aggregation-level
selector, the bucket aggregator, the key-scan filter and the write path.

JavaScript numbers are modelled exactly: finite values as rationals, and
the special values the code can actually produce on the modelled paths
(positive and negative infinity, NaN) as extra constructors of `JsNum`
where they can arise, namely in the time-window and aggregation-level
arithmetic.  Timestamps are integers (epoch milliseconds, produced by
`Date.now()`), temperatures and humidities are rationals.
-/

/-- A JavaScript number as it appears in the time-window / aggregation-level
arithmetic: NaN, an infinity, or a finite value. -/
inductive JsNum where
  | nan
  | posInf
  | negInf
  | fin (q : ℚ)
deriving DecidableEq

/-- JS division `a / b` for a finite divisor `b` (the divisors in the source
are the finite `limit` and counts). -/
def jsDivFin : JsNum → ℚ → JsNum
  | .nan, _ => .nan
  | .posInf, b => if b < 0 then .negInf else .posInf
  | .negInf, b => if b < 0 then .posInf else .negInf
  | .fin q, b =>
      if b = 0 then
        if q = 0 then .nan else if 0 < q then .posInf else .negInf
      else .fin (q / b)

/-- JS multiplication on possibly non-finite numbers. -/
def jsMul : JsNum → JsNum → JsNum
  | .nan, _ => .nan
  | .posInf, .nan => .nan
  | .negInf, .nan => .nan
  | .fin _, .nan => .nan
  | .posInf, .posInf => .posInf
  | .posInf, .negInf => .negInf
  | .negInf, .posInf => .negInf
  | .negInf, .negInf => .posInf
  | .posInf, .fin q => if q = 0 then .nan else if 0 < q then .posInf else .negInf
  | .fin q, .posInf => if q = 0 then .nan else if 0 < q then .posInf else .negInf
  | .negInf, .fin q => if q = 0 then .nan else if 0 < q then .negInf else .posInf
  | .fin q, .negInf => if q = 0 then .nan else if 0 < q then .negInf else .posInf
  | .fin q, .fin r => .fin (q * r)

/-- JS `Math.ceil`; infinities and NaN pass through. -/
def jsCeil : JsNum → JsNum
  | .fin q => .fin (⌈q⌉ : ℚ)
  | x => x

/-- JS `Math.max` on two arguments: NaN-propagating, with the usual order on
the rest. -/
def jsMax : JsNum → JsNum → JsNum
  | .nan, _ => .nan
  | .posInf, .nan => .nan
  | .negInf, .nan => .nan
  | .fin _, .nan => .nan
  | .posInf, _ => .posInf
  | .negInf, .posInf => .posInf
  | .fin _, .posInf => .posInf
  | .negInf, b => b
  | .fin q, .negInf => .fin q
  | .fin q, .fin r => .fin (max q r)

/-- The `TimeScale` enumeration from the source. -/
inductive TimeScale where
  | m30
  | h1
  | h6
  | h24
  | d7
  | d30
  | all
deriving DecidableEq

/-- `getTimeWindowMs`: converts a `TimeScale` to milliseconds; `all` maps to
`Number.POSITIVE_INFINITY`. -/
def getTimeWindowMs : TimeScale → JsNum
  | .m30 => .fin (30 * 60 * 1000)
  | .h1 => .fin (60 * 60 * 1000)
  | .h6 => .fin (6 * 60 * 60 * 1000)
  | .h24 => .fin (24 * 60 * 60 * 1000)
  | .d7 => .fin (7 * 24 * 60 * 60 * 1000)
  | .d30 => .fin (30 * 24 * 60 * 60 * 1000)
  | .all => .posInf

/-- `determineAggregationLevel(dataCount, timeWindowMs, limit)`: bucket size
selection.  Returns `1` when the data already fits the limit, otherwise
`max(15000, ceil((timeWindowMs / limit) * ceil(dataCount / limit)))`, with
the arithmetic carried out on JS numbers. -/
def determineAggregationLevel (dataCount : ℕ) (timeWindowMs : JsNum) (limit : ℕ) : JsNum :=
  if dataCount ≤ limit then .fin 1
  else
    let reductionFactor := jsCeil (jsDivFin (.fin dataCount) limit)
    let estimatedBucketSize := jsCeil (jsMul (jsDivFin timeWindowMs limit) reductionFactor)
    jsMax (.fin (15 * 1000)) estimatedBucketSize

/-- Rewriting `⌈q⌉` as `-⌊-q⌋` lets `norm_num` (which evaluates `⌊⌋` but not
`⌈⌉`) compute ceilings of concrete rationals. -/
theorem ceil_as_neg_floor (q : ℚ) : ⌈q⌉ = -⌊-q⌋ := by
  rw [Int.floor_neg, neg_neg]

/-- The stored reading (`DataKV` in the source): timestamp in epoch
milliseconds (an integer, produced by `Date.now()`), temperature and
humidity as JS numbers, and an optional device identifier. -/
structure DataKV where
  timestamp : ℤ
  temperature : ℚ
  humidity : ℚ
  deviceId : Option String
deriving DecidableEq

/-- A JSON / JS value as it reaches the zod parsers on the modelled paths:
a number, a string, a boolean, `null`, or `undefined` (absent). -/
inductive JVal where
  | num (q : ℚ)
  | str (s : String)
  | bool (b : Bool)
  | null
  | undef
deriving DecidableEq

/-- Accumulating decimal-digit parser over a character list. -/
def digitsToNat : List Char → ℕ → Option ℕ
  | [], acc => some acc
  | c :: rest, acc =>
      if c.isDigit then digitsToNat rest (acc * 10 + (c.toNat - 48)) else none

/-- Models JS `Number(s)` restricted to the string shapes this service
produces and consumes: the empty string (which converts to `0`) and decimal
digit strings; every other string converts to NaN, modelled as `none`. -/
def jsNumberOfString (s : String) : Option ℚ :=
  match s.toList with
  | [] => some 0
  | cs => (digitsToNat cs 0).map (fun n => (n : ℚ))

/-- `z.coerce.number().safeParse(v).data`: applies JS numeric coercion and
rejects NaN (zod rejects NaN even after coercion). -/
def zCoerceNumber : JVal → Option ℚ
  | .num q => some q
  | .str s => jsNumberOfString s
  | .bool b => some (if b then 1 else 0)
  | .null => some 0
  | .undef => none

/-- `z.number().safeParse(v).data`: no coercion, only values that already
are numbers pass. -/
def zNumber : JVal → Option ℚ
  | .num q => some q
  | _ => none

/-- `z.string().safeParse(v).data`. -/
def zString : JVal → Option String
  | .str s => some s
  | _ => none

/-- `url.searchParams.get` / `form.get` / `params.get`: a present parameter
is a string, an absent one is `null`. -/
def jvalOfLookup : Option String → JVal
  | some s => .str s
  | none => .null

/-- The GET handler's limit parsing (line 44):
`z.number().safeParse(url.searchParams.get("limit")).data ?? 1000`. -/
def parseLimitParam (param : Option String) : ℚ :=
  (zNumber (jvalOfLookup param)).getD 1000

/-- JS `String.prototype.split` on a one-character delimiter, on the
character list of the string. -/
def splitCharsOn (delim : Char) : List Char → List Char → List (List Char)
  | [], acc => [acc.reverse]
  | c :: rest, acc =>
      if c = delim then acc.reverse :: splitCharsOn delim rest []
      else splitCharsOn delim rest (c :: acc)

/-- `key.name.split("_")`. -/
def jsSplitUnderscore (s : String) : List String :=
  (splitCharsOn '_' s.toList []).map List.asString

/-- The timestamp a key name carries: the second `_`-delimited segment,
coerced with `z.coerce.number()` (lines 65-66); `none` when the segment is
absent (`undefined`) or does not coerce. -/
def parseKeyTimestamp (keyName : String) : Option ℚ :=
  match (jsSplitUnderscore keyName)[1]? with
  | some s => jsNumberOfString s
  | none => none

/-- The scan filter (lines 64-69): `timeStamp && timeStamp >= cutoffTime`.
A parsed timestamp of `0` is falsy in JS, so the conjunction is false even
when `0 >= cutoffTime`. -/
def scanKeyFilter (cutoffTime : ℚ) (keyName : String) : Bool :=
  match parseKeyTimestamp keyName with
  | some t => decide (¬ t = 0) && decide (cutoffTime ≤ t)
  | none => false

theorem jsSplitUnderscore_key : jsSplitUnderscore "data_0_default" = ["data", "0", "default"] := by
  decide

/-- The payload shape after the content-type branches of the POST handler
normalised their input (lines 105-145). -/
structure Payload where
  temperature : Option ℚ
  humidity : Option ℚ
  deviceId : Option String
deriving DecidableEq

/-- The `application/json` branch (lines 113-121): the three fields of the
decoded JSON object (a missing field is `undefined`), run through
`z.coerce.number()` / `z.string()`. -/
def jsonPayload (temperature humidity deviceId : JVal) : Payload :=
  { temperature := zCoerceNumber temperature
    humidity := zCoerceNumber humidity
    deviceId := zString deviceId }

/-- The `application/x-www-form-urlencoded` branch (lines 122-131) and the
default raw-body branch (lines 132-144), which are identical after lookup:
`form.get` / `params.get` returns the string or `null`, then
`z.coerce.number()` / `z.string()` is applied. -/
def formPayload (temperature humidity deviceId : Option String) : Payload :=
  { temperature := zCoerceNumber (jvalOfLookup temperature)
    humidity := zCoerceNumber (jvalOfLookup humidity)
    deviceId := zString (jvalOfLookup deviceId) }

/-- Outcome of the POST handler: a 400 response with no store interaction,
or a 201 response after `put(key, data)`. -/
inductive WriteResult where
  | badRequest
  | created (key : String) (stored : DataKV)
deriving DecidableEq

/-- The key template of line 155:
`` `data_${Date.now()}_${payload.deviceId || "default"}` ``, evaluated at
the first `Date.now()` sample. -/
def postKey (now1 : ℤ) (deviceId : Option String) : String :=
  "data_" ++ toString now1 ++ "_" ++
    (match deviceId with
      | some d => if d = "" then "default" else d
      | none => "default")

/-- The POST handler after payload normalisation (lines 149-168): validate,
then build the key with one `Date.now()` call (`now1`, line 155) and the
stored value with a second one (`now2`, line 157), then put. -/
def handlePost (p : Payload) (now1 now2 : ℤ) : WriteResult :=
  match p.temperature, p.humidity with
  | some t, some h =>
      .created (postKey now1 p.deviceId)
        { timestamp := now2, temperature := t, humidity := h, deviceId := p.deviceId }
  | _, _ => .badRequest

/-- The per-bucket accumulator of `aggregateReadings` (lines 222-225):
pushed temperature values, pushed humidity values, and the `Set` of device
identifiers in insertion order. -/
structure Bucket where
  temps : List ℚ
  hums : List ℚ
  devs : List String
deriving DecidableEq

/-- `if (reading.deviceId) { bucket.deviceIds.add(reading.deviceId) }`
(lines 240-242): `undefined` and the empty string are falsy and are not
added; `Set.add` appends a value not already present. -/
def devAdd (devs : List String) (d : Option String) : List String :=
  match d with
  | none => devs
  | some s => if s = "" then devs else if s ∈ devs then devs else devs ++ [s]

/-- Record one reading in a bucket (lines 238-242). -/
def Bucket.add (b : Bucket) (r : DataKV) : Bucket :=
  { temps := b.temps ++ [r.temperature]
    hums := b.hums ++ [r.humidity]
    devs := devAdd b.devs r.deviceId }

/-- The freshly created accumulator of line 233. -/
def Bucket.empty : Bucket := ⟨[], [], []⟩

/-- One step of the grouping loop: `Map.get`-update-or-`Map.set` keyed by
the bucket key, preserving the `Map`'s insertion order (lines 232-242). -/
def addToBuckets : List (ℤ × Bucket) → ℤ → DataKV → List (ℤ × Bucket)
  | [], k, r => [(k, Bucket.empty.add r)]
  | (k₁, b) :: rest, k, r =>
      if k₁ = k then (k₁, b.add r) :: rest
      else (k₁, b) :: addToBuckets rest k r

/-- `Math.floor(reading.timestamp / bucketSizeMs) * bucketSizeMs`
(line 230). -/
def bucketKey (bucketSizeMs : ℤ) (ts : ℤ) : ℤ :=
  ⌊(ts : ℚ) / (bucketSizeMs : ℚ)⌋ * bucketSizeMs

/-- The grouping loop of lines 228-243 over the whole reading list. -/
def buildBuckets (bucketSizeMs : ℤ) (readings : List DataKV) : List (ℤ × Bucket) :=
  readings.foldl (fun bs r => addToBuckets bs (bucketKey bucketSizeMs r.timestamp) r) []

/-- `Number(x.toFixed(2))` on an exact rational: the nearest multiple of
1/100, ties towards the larger value (the `toFixed` rounding rule). -/
def round2 (q : ℚ) : ℚ := (⌊q * 100 + 1 / 2⌋ : ℚ) / 100

/-- The per-bucket output reading (lines 246-264): averaged temperature and
humidity rounded to 2 decimals, and the combined device identifier. -/
def bucketOut (timestamp : ℤ) (values : Bucket) : DataKV :=
  { timestamp := timestamp
    temperature := round2 (values.temps.foldl (fun sum val => sum + val) 0 / values.temps.length)
    humidity := round2 (values.hums.foldl (fun sum val => sum + val) 0 / values.hums.length)
    deviceId :=
      match values.devs with
      | [] => none
      | [d] => some d
      | ds => some (String.intercalate "," ds) }

/-- The comparator of line 268, `(a, b) => b.timestamp - a.timestamp`, as
an ordering relation: descending by timestamp. -/
def tsDesc (a b : DataKV) : Prop := b.timestamp ≤ a.timestamp

instance : DecidableRel tsDesc :=
  fun a b => inferInstanceAs (Decidable (b.timestamp ≤ a.timestamp))

instance : IsTotal DataKV tsDesc :=
  ⟨fun a b => le_total b.timestamp a.timestamp⟩

instance : IsTrans DataKV tsDesc :=
  ⟨fun _ _ _ hab hbc => le_trans hbc hab⟩

/-- `aggregateReadings(readings, bucketSizeMs, limit)` (lines 217-272):
empty result on empty input or non-positive bucket size; otherwise group
into buckets, average each bucket, sort descending by bucket timestamp
(a stable sort; bucket timestamps are pairwise distinct, so any stable
sort yields the JS result) and truncate to `limit`. -/
def aggregateReadings (readings : List DataKV) (bucketSizeMs : ℤ) (limit : ℕ) : List DataKV :=
  if readings = [] ∨ bucketSizeMs ≤ 0 then []
  else
    let aggregated := (buildBuckets bucketSizeMs readings).map (fun e => bucketOut e.1 e.2)
    (List.insertionSort tsDesc aggregated).take limit

/-- Insertion-ordered de-duplication step for integer keys. -/
def insKey (ks : List ℤ) (k : ℤ) : List ℤ :=
  if k ∈ ks then ks else ks ++ [k]

/-- The bucket keys of a reading list, first-seen order, deduplicated:
the key set of the `Map` built by the grouping loop. -/
def bucketKeys (w : ℤ) (rs : List DataKV) : List ℤ :=
  (rs.map (fun r => bucketKey w r.timestamp)).foldl insKey []

/-- Specification-side description of a bucket: the readings of `rs` whose
bucket key is `k`, taken in list order. -/
def bucketSpec (w : ℤ) (rs : List DataKV) (k : ℤ) : Bucket :=
  let rsb := rs.filter (fun r => bucketKey w r.timestamp = k)
  { temps := rsb.map (fun r => r.temperature)
    hums := rsb.map (fun r => r.humidity)
    devs := rsb.foldl (fun acc r => devAdd acc r.deviceId) [] }

theorem addToBuckets_of_not_mem (bs : List (ℤ × Bucket)) (k : ℤ) (r : DataKV)
    (h : k ∉ bs.map Prod.fst) :
    addToBuckets bs k r = bs ++ [(k, Bucket.empty.add r)] := by
  induction bs with
  | nil => rfl
  | cons e rest ih =>
      obtain ⟨k₁, b⟩ := e
      simp only [List.map_cons, List.mem_cons, not_or] at h
      simp only [addToBuckets, if_neg (fun hk : k₁ = k => h.1 hk.symm), List.cons_append]
      rw [ih h.2]

theorem map_keep_of_ne (bs : List (ℤ × Bucket)) (k : ℤ) (r : DataKV)
    (h : ∀ e ∈ bs, e.1 ≠ k) :
    bs.map (fun e => if e.1 = k then (e.1, e.2.add r) else e) = bs := by
  have hid : ∀ e ∈ bs, (if e.1 = k then (e.1, e.2.add r) else e) = id e := by
    intro e he
    simp [h e he]
  rw [List.map_congr_left hid, List.map_id]

theorem addToBuckets_of_mem (bs : List (ℤ × Bucket)) (k : ℤ) (r : DataKV)
    (hnd : (bs.map Prod.fst).Nodup) (h : k ∈ bs.map Prod.fst) :
    addToBuckets bs k r = bs.map (fun e => if e.1 = k then (e.1, e.2.add r) else e) := by
  induction bs with
  | nil => simp at h
  | cons e rest ih =>
      obtain ⟨k₁, b⟩ := e
      simp only [List.map_cons, List.nodup_cons] at hnd
      rcases eq_or_ne k₁ k with hk | hk
      · subst hk
        simp only [addToBuckets, if_pos rfl, List.map_cons]
        rw [map_keep_of_ne rest k₁ r
          (fun e he hek => hnd.1 (hek ▸ List.mem_map_of_mem Prod.fst he))]
        simp
      · have hmem : k ∈ rest.map Prod.fst := by
          rcases List.mem_cons.mp h with h₁ | h₁
          · exact absurd h₁.symm hk
          · exact h₁
        simp only [addToBuckets, if_neg hk, List.map_cons]
        rw [ih hnd.2 hmem]

theorem mem_foldl_insKey (l : List ℤ) : ∀ (acc : List ℤ) (x : ℤ),
    x ∈ l.foldl insKey acc ↔ x ∈ acc ∨ x ∈ l := by
  induction l with
  | nil => intro acc x; simp
  | cons a t ih =>
      intro acc x
      simp only [List.foldl_cons]
      rw [ih]
      unfold insKey
      split_ifs with ha
      · simp only [List.mem_cons]
        constructor
        · rintro (h | h)
          · exact Or.inl h
          · exact Or.inr (Or.inr h)
        · rintro (h | h | h)
          · exact Or.inl h
          · exact Or.inl (h ▸ ha)
          · exact Or.inr h
      · simp only [List.mem_append, List.mem_cons, List.mem_singleton]
        tauto

theorem nodup_foldl_insKey (l : List ℤ) : ∀ acc : List ℤ,
    acc.Nodup → (l.foldl insKey acc).Nodup := by
  induction l with
  | nil => intro acc h; exact h
  | cons a t ih =>
      intro acc h
      simp only [List.foldl_cons]
      apply ih
      unfold insKey
      split_ifs with ha
      · exact h
      · simp [List.nodup_append, h, ha]

theorem mem_bucketKeys (w k : ℤ) (rs : List DataKV) :
    k ∈ bucketKeys w rs ↔ ∃ r ∈ rs, bucketKey w r.timestamp = k := by
  unfold bucketKeys
  rw [mem_foldl_insKey]
  simp [List.mem_map]

theorem bucketKeys_nodup (w : ℤ) (rs : List DataKV) : (bucketKeys w rs).Nodup :=
  nodup_foldl_insKey _ _ List.nodup_nil

theorem bucketKeys_concat (w : ℤ) (rs : List DataKV) (r : DataKV) :
    bucketKeys w (rs ++ [r]) = insKey (bucketKeys w rs) (bucketKey w r.timestamp) := by
  unfold bucketKeys
  rw [List.map_append, List.foldl_append]
  rfl

theorem bucketSpec_concat (w : ℤ) (rs : List DataKV) (r : DataKV) (k : ℤ) :
    bucketSpec w (rs ++ [r]) k =
      if bucketKey w r.timestamp = k then (bucketSpec w rs k).add r
      else bucketSpec w rs k := by
  unfold bucketSpec
  by_cases hk : bucketKey w r.timestamp = k
  · simp [hk, List.filter_append, Bucket.add]
  · simp [hk, List.filter_append]

theorem bucketSpec_of_not_mem (w : ℤ) (rs : List DataKV) (k : ℤ)
    (h : ∀ r ∈ rs, bucketKey w r.timestamp ≠ k) : bucketSpec w rs k = Bucket.empty := by
  unfold bucketSpec Bucket.empty
  have hnil : rs.filter (fun r => bucketKey w r.timestamp = k) = [] := by
    simp only [List.filter_eq_nil_iff, decide_eq_true_eq]
    exact h
  simp [hnil]

theorem buildBuckets_eq (w : ℤ) (rs : List DataKV) :
    buildBuckets w rs = (bucketKeys w rs).map (fun k => (k, bucketSpec w rs k)) := by
  induction rs using List.reverseRecOn with
  | nil => rfl
  | append_singleton rs r ih =>
      have hfold : buildBuckets w (rs ++ [r]) =
          addToBuckets (buildBuckets w rs) (bucketKey w r.timestamp) r := by
        unfold buildBuckets
        rw [List.foldl_append]
        rfl
      have hkeys : ((bucketKeys w rs).map (fun k => (k, bucketSpec w rs k))).map Prod.fst
          = bucketKeys w rs := by
        simp [List.map_map, Function.comp_def]
      rw [hfold, ih, bucketKeys_concat]
      by_cases hmem : bucketKey w r.timestamp ∈ bucketKeys w rs
      · rw [insKey, if_pos hmem]
        rw [addToBuckets_of_mem _ _ _ (by rw [hkeys]; exact bucketKeys_nodup w rs)
          (by rw [hkeys]; exact hmem)]
        rw [List.map_map]
        apply List.map_congr_left
        intro k hkm
        simp only [Function.comp_apply]
        by_cases hkk : k = bucketKey w r.timestamp
        · subst hkk
          rw [if_pos rfl, bucketSpec_concat, if_pos rfl]
        · rw [if_neg hkk, bucketSpec_concat, if_neg (fun hek => hkk hek.symm)]
      · rw [insKey, if_neg hmem]
        rw [addToBuckets_of_not_mem _ _ _ (by rw [hkeys]; exact hmem), List.map_append]
        congr 1
        · apply List.map_congr_left
          intro k hkm
          rw [bucketSpec_concat, if_neg (fun hek => hmem (by rw [hek]; exact hkm))]
        · have hempty : bucketSpec w rs (bucketKey w r.timestamp) = Bucket.empty := by
            apply bucketSpec_of_not_mem
            intro r₁ hr₁ hkey
            exact hmem ((mem_bucketKeys w _ rs).mpr ⟨r₁, hr₁, hkey⟩)
          simp [bucketSpec_concat, hempty]

/-- Arithmetic mean of a list of rationals, as the spec states it. -/
def meanList (l : List ℚ) : ℚ := l.sum / l.length

/-- Insertion-ordered de-duplication step for strings (`Set.add`). -/
def insStr (acc : List String) (s : String) : List String :=
  if s ∈ acc then acc else acc ++ [s]

/-- First-seen-order de-duplication of a string list. -/
def firstSeenDedup (l : List String) : List String := l.foldl insStr []

/-- The device identifier a reading contributes to its bucket: present and
non-empty (JS-truthy), else nothing. -/
def truthyId (r : DataKV) : Option String :=
  match r.deviceId with
  | some s => if s = "" then none else some s
  | none => none

/-- The output device-identifier rule of the spec: absent for no
contributors, the single identifier for one, comma-joined for several. -/
def deviceIdJoin : List String → Option String
  | [] => none
  | [d] => some d
  | ds => some (String.intercalate "," ds)

theorem foldl_add_eq_sum (l : List ℚ) :
    l.foldl (fun sum val => sum + val) 0 = l.sum := by
  have hgen : ∀ (a : ℚ), l.foldl (fun sum val => sum + val) a = a + l.sum := by
    induction l with
    | nil => intro a; simp
    | cons x t ih =>
        intro a
        simp only [List.foldl_cons, List.sum_cons, ih]
        ring
  simpa using hgen 0

theorem devFold_eq (rs : List DataKV) : ∀ acc : List String,
    rs.foldl (fun acc r => devAdd acc r.deviceId) acc
      = (rs.filterMap truthyId).foldl insStr acc := by
  induction rs with
  | nil => intro acc; rfl
  | cons r t ih =>
      intro acc
      simp only [List.foldl_cons]
      match hd : r.deviceId with
      | none =>
          have ht : truthyId r = none := by simp [truthyId, hd]
          have hstep : devAdd acc none = acc := by simp [devAdd]
          rw [hstep, List.filterMap_cons, ht]
          exact ih acc
      | some s =>
          by_cases hs : s = ""
          · have ht : truthyId r = none := by simp [truthyId, hd, hs]
            have hstep : devAdd acc (some s) = acc := by simp [devAdd, hs]
            rw [hstep, List.filterMap_cons, ht]
            exact ih acc
          · have ht : truthyId r = some s := by simp [truthyId, hd, hs]
            have hstep : devAdd acc (some s) = insStr acc s := by
              simp [devAdd, insStr, hs]
            rw [hstep, List.filterMap_cons, ht, List.foldl_cons]
            exact ih (insStr acc s)

theorem aggregate_eq_take (rs : List DataKV) (w : ℤ) (limit : ℕ)
    (hne : ¬(rs = [] ∨ w ≤ 0)) :
    aggregateReadings rs w limit =
      (List.insertionSort tsDesc
        ((buildBuckets w rs).map (fun e => bucketOut e.1 e.2))).take limit := by
  unfold aggregateReadings
  rw [if_neg hne]

theorem aggregate_mem (rs : List DataKV) (w : ℤ) (limit : ℕ) (out : DataKV)
    (h : out ∈ aggregateReadings rs w limit) :
    ∃ k ∈ bucketKeys w rs, out = bucketOut k (bucketSpec w rs k) := by
  by_cases hc : rs = [] ∨ w ≤ 0
  · unfold aggregateReadings at h
    rw [if_pos hc] at h
    simp at h
  · rw [aggregate_eq_take rs w limit hc] at h
    have h₁ := List.mem_of_mem_take h
    rw [List.mem_insertionSort] at h₁
    obtain ⟨e, he, heq⟩ := List.mem_map.mp h₁
    rw [buildBuckets_eq] at he
    obtain ⟨k, hk, hek⟩ := List.mem_map.mp he
    exact ⟨k, hk, by rw [← heq, ← hek]⟩

theorem sortedAgg_pairwise_lt (rs : List DataKV) (w : ℤ) :
    (List.insertionSort tsDesc
      ((buildBuckets w rs).map (fun e => bucketOut e.1 e.2))).Pairwise
        (fun a b => b.timestamp < a.timestamp) := by
  have hsorted : (List.insertionSort tsDesc
      ((buildBuckets w rs).map (fun e => bucketOut e.1 e.2))).Pairwise tsDesc :=
    List.sorted_insertionSort tsDesc _
  have hperm := List.perm_insertionSort tsDesc
    ((buildBuckets w rs).map (fun e => bucketOut e.1 e.2))
  have hne : ((buildBuckets w rs).map (fun e => bucketOut e.1 e.2)).Pairwise
      (fun a b => a.timestamp ≠ b.timestamp) := by
    rw [buildBuckets_eq, List.map_map, List.pairwise_map]
    have hnd : (bucketKeys w rs).Pairwise (· ≠ ·) := bucketKeys_nodup w rs
    exact hnd.imp (fun hab => hab)
  have hne₂ := (hperm.pairwise_iff
    (fun {a b} hab => (hab : a.timestamp ≠ b.timestamp).symm)).mpr hne
  exact (hsorted.and hne₂).imp
    (fun hab => lt_of_le_of_ne hab.1 (Ne.symm hab.2))

theorem aggregate_pairwise (rs : List DataKV) (w : ℤ) (limit : ℕ) :
    (aggregateReadings rs w limit).Pairwise (fun a b => b.timestamp < a.timestamp) := by
  by_cases hc : rs = [] ∨ w ≤ 0
  · unfold aggregateReadings
    rw [if_pos hc]
    exact List.Pairwise.nil
  · rw [aggregate_eq_take rs w limit hc]
    exact (sortedAgg_pairwise_lt rs w).sublist (List.take_sublist _ _)

theorem aggregate_length_le (rs : List DataKV) (w : ℤ) (limit : ℕ) :
    (aggregateReadings rs w limit).length ≤ limit := by
  by_cases hc : rs = [] ∨ w ≤ 0
  · unfold aggregateReadings
    rw [if_pos hc]
    simp
  · rw [aggregate_eq_take rs w limit hc]
    simp [List.length_take]

/-- The projection of a reading the spec's raw-mode property talks about:
timestamp, temperature and humidity. -/
def readingTuple (r : DataKV) : ℤ × ℚ × ℚ := (r.timestamp, r.temperature, r.humidity)

/-- Replace an empty-string device identifier by an absent one, leaving
everything else unchanged. -/
def eraseEmptyId (r : DataKV) : DataKV :=
  if r.deviceId = some "" then { r with deviceId := none } else r

theorem foldl_insKey_of_nodup (l : List ℤ) : ∀ acc : List ℤ,
    l.Nodup → (∀ x ∈ l, x ∉ acc) → l.foldl insKey acc = acc ++ l := by
  induction l with
  | nil => intro acc _ _; simp
  | cons a t ih =>
      intro acc hnd hdisj
      simp only [List.foldl_cons]
      rw [insKey, if_neg (hdisj a (List.mem_cons_self a t))]
      rw [List.nodup_cons] at hnd
      rw [ih (acc ++ [a]) hnd.2 ?_]
      · simp
      · intro x hx
        simp only [List.mem_append, List.mem_singleton, not_or]
        exact ⟨hdisj x (List.mem_cons_of_mem a hx), fun hxa => hnd.1 (hxa ▸ hx)⟩

theorem filter_ts_singleton (rs : List DataKV) :
    (rs.map (fun r => r.timestamp)).Nodup → ∀ r ∈ rs,
      rs.filter (fun x => x.timestamp = r.timestamp) = [r] := by
  induction rs with
  | nil => intro _ r hr; simp at hr
  | cons x t ih =>
      intro hnd r hr
      simp only [List.map_cons, List.nodup_cons] at hnd
      rcases List.mem_cons.mp hr with hrx | hrt
      · subst hrx
        rw [List.filter_cons, if_pos (by simp)]
        have hnil : t.filter (fun x => x.timestamp = r.timestamp) = [] := by
          simp only [List.filter_eq_nil_iff, decide_eq_true_eq]
          intro y hy hyt
          exact hnd.1 (hyt ▸ List.mem_map_of_mem (fun z => z.timestamp) hy)
        rw [hnil]
      · have hne : ¬ x.timestamp = r.timestamp := by
          intro hxr
          exact hnd.1 (hxr ▸ List.mem_map_of_mem (fun z => z.timestamp) hrt)
        rw [List.filter_cons, if_neg (by simpa using hne)]
        exact ih hnd.2 r hrt

theorem devs_match_eq_deviceIdJoin (l : List String) :
    (match l with
      | [] => (none : Option String)
      | [d] => some d
      | ds => some (String.intercalate "," ds)) = deviceIdJoin l := by
  match l with
  | [] => rfl
  | [d] => rfl
  | a :: b :: t => rfl

theorem bucketAdd_erase (b : Bucket) (r : DataKV) :
    b.add (eraseEmptyId r) = b.add r := by
  unfold Bucket.add eraseEmptyId
  by_cases hd : r.deviceId = some ""
  · simp [hd, devAdd]
  · simp [hd]

theorem addToBuckets_erase (bs : List (ℤ × Bucket)) (k : ℤ) (r : DataKV) :
    addToBuckets bs k (eraseEmptyId r) = addToBuckets bs k r := by
  induction bs with
  | nil => simp [addToBuckets, bucketAdd_erase]
  | cons e rest ih =>
      obtain ⟨k₁, b⟩ := e
      by_cases hk : k₁ = k
      · simp [addToBuckets, hk, bucketAdd_erase]
      · simp [addToBuckets, hk, ih]

theorem eraseEmptyId_timestamp (r : DataKV) :
    (eraseEmptyId r).timestamp = r.timestamp := by
  unfold eraseEmptyId
  split <;> rfl

/-- C2: the resolution selector returns bucket width 1 whenever
`candidateCount ≤ limit`; otherwise, for a finite `windowMs`, it returns
`max(15000, ceil((windowMs / limit) * ceil(candidateCount / limit)))`, so
the returned width is never strictly between 1 and the 15000 ms floor. -/
theorem determineAggregationLevel_spec (candidateCount limit : ℕ) (w : ℚ)
    (hl : 0 < limit) :
    (candidateCount ≤ limit →
      determineAggregationLevel candidateCount (.fin w) limit = .fin 1) ∧
    (limit < candidateCount →
      determineAggregationLevel candidateCount (.fin w) limit
        = .fin (max 15000
            ((⌈w / (limit : ℚ) * ((⌈(candidateCount : ℚ) / (limit : ℚ)⌉ : ℤ) : ℚ)⌉ : ℤ) : ℚ))) ∧
    (∀ q : ℚ, determineAggregationLevel candidateCount (.fin w) limit = .fin q →
      q = 1 ∨ 15000 ≤ q) := by
  have hl0 : ((limit : ℚ)) ≠ 0 := Nat.cast_ne_zero.mpr hl.ne'
  refine ⟨?_, ?_, ?_⟩
  · intro h
    unfold determineAggregationLevel
    rw [if_pos h]
  · intro h
    unfold determineAggregationLevel
    rw [if_neg (not_le.mpr h)]
    simp only [jsDivFin, if_neg hl0, jsCeil, jsMul, jsMax, JsNum.fin.injEq]
    norm_num
  · intro q hq
    by_cases h : candidateCount ≤ limit
    · unfold determineAggregationLevel at hq
      rw [if_pos h] at hq
      simp only [JsNum.fin.injEq] at hq
      exact Or.inl hq.symm
    · right
      unfold determineAggregationLevel at hq
      rw [if_neg h] at hq
      simp only [jsDivFin, if_neg hl0, jsCeil, jsMul, jsMax, JsNum.fin.injEq] at hq
      rw [← hq]
      calc (15000 : ℚ) ≤ 15 * 1000 := by norm_num
        _ ≤ _ := le_max_left _ _

/-- Witness for C2 at `candidateCount = 3`, `limit = 2`, `windowMs = 60000`:
the selector returns `max(15000, ceil(30000 * 2)) = 60000`. -/
theorem determineAggregationLevel_spec_witness :
    determineAggregationLevel 3 (.fin 60000) 2 = .fin 60000 := by
  have h := (determineAggregationLevel_spec 3 2 60000 (by norm_num)).2.1 (by norm_num)
  rw [h]
  norm_num [ceil_as_neg_floor]

/-- C4 (claim refuted; the spec is the intent): for the `all` scale with
`candidateCount > limit` the code's bucket width is `Infinity`, not a
finite span-derived integer — `getTimeWindowMs` returns
`Number.POSITIVE_INFINITY` and `determineAggregationLevel` propagates it
through the bucket-width arithmetic. -/
theorem aggregationLevel_all_infinite :
    determineAggregationLevel 1001 (getTimeWindowMs .all) 1000 = .posInf := by
  norm_num [determineAggregationLevel, jsDivFin, jsMul, jsCeil, jsMax, getTimeWindowMs,
    ceil_as_neg_floor]

/-- C3 (claim refuted; the spec is the intent): the GET handler parses the
`limit` query parameter with `z.number()` (no coercion) applied to a
string-or-null, which always fails, so the result-count budget is `1000`
for every request — the requested `n` is never used. -/
theorem limit_param_ignored :
    (∀ s : String, parseLimitParam (some s) = 1000) ∧ parseLimitParam none = 1000 := by
  exact ⟨fun s => rfl, rfl⟩

/-- C7 (claim refuted; the spec is the intent): a well-formed key whose
embedded timestamp is `0` parses successfully, yet the filter drops it even
with cutoff `0`, because `timeStamp && timeStamp >= cutoffTime` is falsy
for `timeStamp = 0`; a key with timestamp `1` is retained. -/
theorem scan_filter_drops_zero_timestamp :
    parseKeyTimestamp "data_0_default" = some 0 ∧
    scanKeyFilter 0 "data_0_default" = false ∧
    scanKeyFilter 0 "data_1_default" = true := by
  refine ⟨?_, ?_, ?_⟩ <;> decide

/-- C8 (claim refuted; the spec is the intent): the key is built from one
`Date.now()` sample and the stored value from a second one; when the clock
ticks between them (1000 then 1001) the key embeds timestamp 1000 while
the value it names carries timestamp 1001. -/
theorem write_key_timestamp_mismatch :
    handlePost ⟨some 20, some 50, none⟩ 1000 1001
      = .created "data_1000_default" ⟨1001, 20, 50, none⟩ ∧
    parseKeyTimestamp "data_1000_default" = some 1000 ∧
    ¬ ((1000 : ℚ) = ((1001 : ℤ) : ℚ)) := by
  refine ⟨?_, ?_, ?_⟩ <;> decide

/-- C9 (amended): the write handler returns 400 (performing no put) exactly
when JS numeric coercion of temperature or humidity fails; a missing field
fails coercion only in the JSON branch — in the form and raw branches a
missing field reads as `null` and coerces to `0` — and whenever both
coercions succeed the reading is persisted and 201 is returned. -/
theorem post_validation_coercion :
    (∀ (p : Payload) (now1 now2 : ℤ),
      handlePost p now1 now2 = .badRequest ↔ (p.temperature = none ∨ p.humidity = none)) ∧
    (∀ t d : Option String, (formPayload t none d).humidity = some 0) ∧
    (∀ h d : Option String, (formPayload none h d).temperature = some 0) ∧
    (∀ h d : JVal, (jsonPayload .undef h d).temperature = none) ∧
    (∀ t d : JVal, (jsonPayload t .undef d).humidity = none) ∧
    (∀ (p : Payload) (now1 now2 : ℤ) (q r : ℚ),
      p.temperature = some q → p.humidity = some r →
      handlePost p now1 now2
        = .created (postKey now1 p.deviceId) ⟨now2, q, r, p.deviceId⟩) := by
  refine ⟨?_, ?_, ?_, ?_, ?_, ?_⟩
  · intro p now1 now2
    obtain ⟨t, h, d⟩ := p
    cases t <;> cases h <;> simp [handlePost]
  · intro t d
    rfl
  · intro h d
    rfl
  · intro h d
    rfl
  · intro t d
    rfl
  · intro p now1 now2 q r ht hh
    obtain ⟨t, h, d⟩ := p
    cases ht
    cases hh
    rfl

/-- Witness for C9 (amended) at a concrete payload with both fields
coercible: the reading is persisted and a key is produced. -/
theorem post_validation_coercion_witness :
    handlePost ⟨some 21, some 55, some "dev"⟩ 9 9
      = .created (postKey 9 (some "dev")) ⟨9, 21, 55, some "dev"⟩ :=
  post_validation_coercion.2.2.2.2.2 ⟨some 21, some 55, some "dev"⟩ 9 9 21 55 rfl rfl

/-- Counterexample to C9 as stated: a form-encoded POST with humidity
missing is not rejected — `form.get("humidity")` is `null`, which coerces
to `0`, so the handler persists `humidity = 0` and returns 201. -/
theorem post_missing_humidity_created :
    handlePost (formPayload (some "21") none none) 7 7
      = .created "data_7_default" ⟨7, 21, 0, none⟩ := by
  decide

theorem buildBuckets_erase (w : ℤ) (rs : List DataKV) :
    buildBuckets w (rs.map eraseEmptyId) = buildBuckets w rs := by
  unfold buildBuckets
  rw [List.foldl_map]
  have hgen : ∀ bs : List (ℤ × Bucket),
      rs.foldl (fun bs r => addToBuckets bs (bucketKey w (eraseEmptyId r).timestamp)
        (eraseEmptyId r)) bs
      = rs.foldl (fun bs r => addToBuckets bs (bucketKey w r.timestamp) r) bs := by
    induction rs with
    | nil => intro bs; rfl
    | cons r t ih =>
        intro bs
        simp only [List.foldl_cons]
        rw [eraseEmptyId_timestamp, addToBuckets_erase]
        exact ih _
  exact hgen []

theorem bucketOut_timestamp (k : ℤ) (b : Bucket) : (bucketOut k b).timestamp = k := rfl

theorem bucketOut_temperature (k : ℤ) (b : Bucket) :
    (bucketOut k b).temperature
      = round2 (b.temps.foldl (fun sum val => sum + val) 0 / b.temps.length) := rfl

theorem bucketOut_humidity (k : ℤ) (b : Bucket) :
    (bucketOut k b).humidity
      = round2 (b.hums.foldl (fun sum val => sum + val) 0 / b.hums.length) := rfl

theorem bucketOut_deviceId (k : ℤ) (b : Bucket) :
    (bucketOut k b).deviceId = deviceIdJoin b.devs :=
  devs_match_eq_deviceIdJoin b.devs

theorem bucketSpec_temps (w : ℤ) (rs : List DataKV) (k : ℤ) :
    (bucketSpec w rs k).temps
      = (rs.filter (fun r => bucketKey w r.timestamp = k)).map (fun r => r.temperature) := rfl

theorem bucketSpec_hums (w : ℤ) (rs : List DataKV) (k : ℤ) :
    (bucketSpec w rs k).hums
      = (rs.filter (fun r => bucketKey w r.timestamp = k)).map (fun r => r.humidity) := rfl

theorem bucketSpec_devs (w : ℤ) (rs : List DataKV) (k : ℤ) :
    (bucketSpec w rs k).devs
      = (rs.filter (fun r => bucketKey w r.timestamp = k)).foldl
          (fun acc r => devAdd acc r.deviceId) [] := rfl

/-- C1: for every non-empty reading list and positive limit the aggregator
output has length at most `limit`, is sorted strictly by descending
timestamp, and — because sorting happens before truncation — every bucket
that is not kept has a strictly smaller timestamp than every kept one. -/
theorem aggregate_sorted_truncated (rs : List DataKV) (w : ℤ) (limit : ℕ)
    (hrs : rs ≠ []) (hl : 0 < limit) :
    (aggregateReadings rs w limit).length ≤ limit ∧
    (aggregateReadings rs w limit).Pairwise (fun a b => b.timestamp < a.timestamp) ∧
    (∀ e ∈ buildBuckets w rs,
      (∀ out ∈ aggregateReadings rs w limit, out.timestamp ≠ e.1) →
      ∀ out ∈ aggregateReadings rs w limit, e.1 < out.timestamp) := by
  refine ⟨aggregate_length_le rs w limit, aggregate_pairwise rs w limit, ?_⟩
  intro e he hnot out hout
  by_cases hc : rs = [] ∨ w ≤ 0
  · exfalso
    unfold aggregateReadings at hout
    rw [if_pos hc] at hout
    simp at hout
  · simp only [aggregate_eq_take rs w limit hc] at hnot hout
    set sorted := List.insertionSort tsDesc
      ((buildBuckets w rs).map (fun x => bucketOut x.1 x.2)) with hsdef
    have hb : bucketOut e.1 e.2 ∈ sorted := by
      rw [hsdef, List.mem_insertionSort]
      exact List.mem_map.mpr ⟨e, he, rfl⟩
    have hsplit : sorted.take limit ++ sorted.drop limit = sorted :=
      List.take_append_drop limit sorted
    have hpl : (sorted.take limit ++ sorted.drop limit).Pairwise
        (fun a b => b.timestamp < a.timestamp) := by
      rw [hsplit]
      exact sortedAgg_pairwise_lt rs w
    have hcross := (List.pairwise_append.mp hpl).2.2
    rcases List.mem_append.mp (by rw [hsplit]; exact hb) with hmem | hmem
    · exact absurd (bucketOut_timestamp e.1 e.2) (hnot _ hmem)
    · have hlt := hcross out hout _ hmem
      rw [bucketOut_timestamp] at hlt
      exact hlt

/-- Witness for C1 on two readings with distinct buckets and `limit = 1`:
only the most recent bucket is kept. -/
theorem aggregate_sorted_truncated_witness :
    ([⟨0, 1, 2, none⟩, ⟨5000, 3, 4, none⟩] : List DataKV) ≠ [] ∧ 0 < 1 ∧
    ((aggregateReadings [⟨0, 1, 2, none⟩, ⟨5000, 3, 4, none⟩] 1 1).length ≤ 1 ∧
      (aggregateReadings [⟨0, 1, 2, none⟩, ⟨5000, 3, 4, none⟩] 1 1).Pairwise
        (fun a b => b.timestamp < a.timestamp) ∧
      (∀ e ∈ buildBuckets 1 [⟨0, 1, 2, none⟩, ⟨5000, 3, 4, none⟩],
        (∀ out ∈ aggregateReadings [⟨0, 1, 2, none⟩, ⟨5000, 3, 4, none⟩] 1 1,
          out.timestamp ≠ e.1) →
        ∀ out ∈ aggregateReadings [⟨0, 1, 2, none⟩, ⟨5000, 3, 4, none⟩] 1 1,
          e.1 < out.timestamp)) :=
  ⟨by simp, by norm_num,
    aggregate_sorted_truncated [⟨0, 1, 2, none⟩, ⟨5000, 3, 4, none⟩] 1 1 (by simp) (by norm_num)⟩

/-- C6: every output bucket is non-empty, its temperature and humidity are
the arithmetic means of the contributing readings rounded to 2 decimals,
and its device identifier is absent / the single contributor / the
comma-join of the distinct contributors in first-seen order. -/
theorem aggregate_bucket_stats (rs : List DataKV) (w : ℤ) (limit : ℕ) (out : DataKV)
    (h : out ∈ aggregateReadings rs w limit) :
    rs.filter (fun r => bucketKey w r.timestamp = out.timestamp) ≠ [] ∧
    out.temperature = round2 (meanList
      ((rs.filter (fun r => bucketKey w r.timestamp = out.timestamp)).map
        (fun r => r.temperature))) ∧
    out.humidity = round2 (meanList
      ((rs.filter (fun r => bucketKey w r.timestamp = out.timestamp)).map
        (fun r => r.humidity))) ∧
    out.deviceId = deviceIdJoin (firstSeenDedup
      ((rs.filter (fun r => bucketKey w r.timestamp = out.timestamp)).filterMap truthyId)) := by
  obtain ⟨k, hk, hout⟩ := aggregate_mem rs w limit out h
  subst hout
  rw [bucketOut_timestamp]
  refine ⟨?_, ?_, ?_, ?_⟩
  · obtain ⟨r, hr, hkey⟩ := (mem_bucketKeys w k rs).mp hk
    intro hnil
    have hmem : r ∈ rs.filter (fun x => bucketKey w x.timestamp = k) :=
      List.mem_filter.mpr ⟨hr, by simpa using hkey⟩
    rw [hnil] at hmem
    simp at hmem
  · rw [bucketOut_temperature, bucketSpec_temps, foldl_add_eq_sum]
    rfl
  · rw [bucketOut_humidity, bucketSpec_hums, foldl_add_eq_sum]
    rfl
  · rw [bucketOut_deviceId, bucketSpec_devs, devFold_eq]
    rfl

/-- Witness for C6: two readings landing in the same 1000 ms bucket with
the same device id average to (15, 55) and keep the single identifier. -/
theorem aggregate_bucket_stats_witness :
    (⟨0, 15, 55, some "a"⟩ : DataKV) ∈
      aggregateReadings [⟨0, 10, 50, some "a"⟩, ⟨1, 20, 60, some "a"⟩] 1000 10 ∧
    (([⟨0, 10, 50, some "a"⟩, ⟨1, 20, 60, some "a"⟩] : List DataKV).filter
        (fun r => bucketKey 1000 r.timestamp
          = (⟨0, 15, 55, some "a"⟩ : DataKV).timestamp) ≠ [] ∧
      (⟨0, 15, 55, some "a"⟩ : DataKV).temperature = round2 (meanList
        ((([⟨0, 10, 50, some "a"⟩, ⟨1, 20, 60, some "a"⟩] : List DataKV).filter
          (fun r => bucketKey 1000 r.timestamp
            = (⟨0, 15, 55, some "a"⟩ : DataKV).timestamp)).map
          (fun r => r.temperature))) ∧
      (⟨0, 15, 55, some "a"⟩ : DataKV).humidity = round2 (meanList
        ((([⟨0, 10, 50, some "a"⟩, ⟨1, 20, 60, some "a"⟩] : List DataKV).filter
          (fun r => bucketKey 1000 r.timestamp
            = (⟨0, 15, 55, some "a"⟩ : DataKV).timestamp)).map
          (fun r => r.humidity))) ∧
      (⟨0, 15, 55, some "a"⟩ : DataKV).deviceId = deviceIdJoin (firstSeenDedup
        ((([⟨0, 10, 50, some "a"⟩, ⟨1, 20, 60, some "a"⟩] : List DataKV).filter
          (fun r => bucketKey 1000 r.timestamp
            = (⟨0, 15, 55, some "a"⟩ : DataKV).timestamp)).filterMap truthyId))) := by
  have heval : aggregateReadings [⟨0, 10, 50, some "a"⟩, ⟨1, 20, 60, some "a"⟩] 1000 10
      = [⟨0, 15, 55, some "a"⟩] := by
    norm_num [aggregateReadings, buildBuckets, addToBuckets, bucketKey, bucketOut, round2,
      Bucket.add, Bucket.empty, devAdd, List.insertionSort, List.orderedInsert, tsDesc] <;>
    decide
  have hmem : (⟨0, 15, 55, some "a"⟩ : DataKV) ∈
      aggregateReadings [⟨0, 10, 50, some "a"⟩, ⟨1, 20, 60, some "a"⟩] 1000 10 := by
    rw [heval]
    exact List.mem_singleton.mpr rfl
  exact ⟨hmem, aggregate_bucket_stats _ 1000 10 _ hmem⟩

/-- C10: an empty-string device identifier contributes nothing during
aggregation — erasing empty-string identifiers leaves the aggregator
output unchanged, and a bucket fed only empty-string identifiers yields an
absent `deviceId`. -/
theorem empty_deviceId_ignored (rs : List DataKV) (w : ℤ) (limit : ℕ) :
    aggregateReadings (rs.map eraseEmptyId) w limit = aggregateReadings rs w limit ∧
    ((∀ r ∈ rs, r.deviceId = some "") →
      ∀ out ∈ aggregateReadings rs w limit, out.deviceId = none) := by
  constructor
  · unfold aggregateReadings
    have hcond : (rs.map eraseEmptyId = [] ∨ w ≤ 0) ↔ (rs = [] ∨ w ≤ 0) := by
      simp
    by_cases hc : rs = [] ∨ w ≤ 0
    · rw [if_pos hc, if_pos (hcond.mpr hc)]
    · rw [if_neg hc, if_neg (fun h => hc (hcond.mp h))]
      rw [buildBuckets_erase]
  · intro hall out hout
    obtain ⟨k, hk, hout_eq⟩ := aggregate_mem rs w limit out hout
    subst hout_eq
    rw [bucketOut_deviceId, bucketSpec_devs, devFold_eq]
    have hnilfm : (rs.filter (fun r => bucketKey w r.timestamp = k)).filterMap truthyId
        = [] := by
      rw [List.filterMap_eq_nil_iff]
      intro r hr
      have hid := hall r (List.mem_of_mem_filter hr)
      simp [truthyId, hid]
    rw [hnilfm]
    rfl

/-- Witness for C10: a single reading with an empty-string identifier
aggregates identically to one with no identifier, and the output carries
no `deviceId`. -/
theorem empty_deviceId_ignored_witness :
    aggregateReadings (([⟨0, 1, 2, some ""⟩] : List DataKV).map eraseEmptyId) 5 3
      = aggregateReadings [⟨0, 1, 2, some ""⟩] 5 3 ∧
    (⟨0, 1, 2, none⟩ : DataKV) ∈ aggregateReadings [⟨0, 1, 2, some ""⟩] 5 3 ∧
    (⟨0, 1, 2, none⟩ : DataKV).deviceId = none := by
  have hmem : (⟨0, 1, 2, none⟩ : DataKV) ∈ aggregateReadings [⟨0, 1, 2, some ""⟩] 5 3 := by
    have heval : aggregateReadings [⟨0, 1, 2, some ""⟩] 5 3 = [⟨0, 1, 2, none⟩] := by
      norm_num [aggregateReadings, buildBuckets, addToBuckets, bucketKey, bucketOut, round2,
        Bucket.add, Bucket.empty, devAdd, List.insertionSort, List.orderedInsert, tsDesc] <;>
      decide
    rw [heval]
    exact List.mem_singleton.mpr rfl
  exact ⟨(empty_deviceId_ignored [⟨0, 1, 2, some ""⟩] 5 3).1, hmem,
    (empty_deviceId_ignored [⟨0, 1, 2, some ""⟩] 5 3).2 (by simp) _ hmem⟩

/-- C5 (amended): width-1 aggregation reproduces the input tuples exactly
(as a permutation) for reading lists with pairwise-distinct timestamps, at
most `limit` readings, and temperature and humidity values already exact
to 2 decimal places; in general the aggregator still merges readings that
share a timestamp, rounds values via `toFixed(2)`, and truncates. -/
theorem raw_mode_pass_through (rs : List DataKV) (limit : ℕ)
    (hnd : (rs.map (fun r => r.timestamp)).Nodup)
    (hlen : rs.length ≤ limit)
    (hround : ∀ r ∈ rs, round2 r.temperature = r.temperature ∧
      round2 r.humidity = r.humidity) :
    ((aggregateReadings rs 1 limit).map readingTuple).Perm (rs.map readingTuple) := by
  rcases eq_or_ne rs [] with hrs | hrs
  · subst hrs
    simp [aggregateReadings]
  · have hc : ¬(rs = [] ∨ (1 : ℤ) ≤ 0) := by
      push_neg
      exact ⟨hrs, by norm_num⟩
    have hkey : ∀ r : DataKV, bucketKey 1 r.timestamp = r.timestamp := by
      intro r
      unfold bucketKey
      norm_num
    have hbk : bucketKeys 1 rs = rs.map (fun r => r.timestamp) := by
      unfold bucketKeys
      rw [List.map_congr_left (fun r _ => hkey r)]
      simpa using foldl_insKey_of_nodup (rs.map (fun r => r.timestamp)) [] hnd (by simp)
    have hfilter : ∀ r ∈ rs,
        rs.filter (fun x => bucketKey 1 x.timestamp = r.timestamp) = [r] := by
      intro r hr
      have hcongr : rs.filter (fun x => bucketKey 1 x.timestamp = r.timestamp)
          = rs.filter (fun x => x.timestamp = r.timestamp) := by
        apply List.filter_congr
        intro x _
        simp [hkey x]
      rw [hcongr]
      exact filter_ts_singleton rs hnd r hr
    have htup : ∀ r ∈ rs,
        readingTuple (bucketOut r.timestamp (bucketSpec 1 rs r.timestamp))
          = readingTuple r := by
      intro r hr
      unfold readingTuple
      rw [bucketOut_timestamp, bucketOut_temperature, bucketOut_humidity,
        bucketSpec_temps, bucketSpec_hums, hfilter r hr]
      simp only [List.map_cons, List.map_nil, List.foldl_cons, List.foldl_nil,
        List.length_cons, List.length_nil, zero_add, Nat.cast_one, div_one]
      rw [(hround r hr).1, (hround r hr).2]
    have hbb : (buildBuckets 1 rs).map (fun e => bucketOut e.1 e.2)
        = rs.map (fun r => bucketOut r.timestamp (bucketSpec 1 rs r.timestamp)) := by
      rw [buildBuckets_eq, List.map_map, hbk, List.map_map]
      rfl
    rw [aggregate_eq_take rs 1 limit hc, hbb]
    have htake : (List.insertionSort tsDesc
        (rs.map (fun r => bucketOut r.timestamp (bucketSpec 1 rs r.timestamp)))).take limit
        = List.insertionSort tsDesc
          (rs.map (fun r => bucketOut r.timestamp (bucketSpec 1 rs r.timestamp))) := by
      apply List.take_of_length_le
      rw [(List.perm_insertionSort tsDesc _).length_eq, List.length_map]
      exact hlen
    rw [htake]
    have hstep : (rs.map (fun r => bucketOut r.timestamp (bucketSpec 1 rs r.timestamp))).map
        readingTuple = rs.map readingTuple := by
      rw [List.map_map]
      exact List.map_congr_left (fun r hr => htup r hr)
    exact hstep ▸ (List.perm_insertionSort tsDesc _).map readingTuple

/-- Witness for C5 (amended) on a single reading whose values are exact to
2 decimals. -/
theorem raw_mode_pass_through_witness :
    (([⟨0, 3 / 2, 2, none⟩] : List DataKV).map (fun r => r.timestamp)).Nodup ∧
    ([⟨0, 3 / 2, 2, none⟩] : List DataKV).length ≤ 5 ∧
    (∀ r ∈ ([⟨0, 3 / 2, 2, none⟩] : List DataKV),
      round2 r.temperature = r.temperature ∧ round2 r.humidity = r.humidity) ∧
    ((aggregateReadings [⟨0, 3 / 2, 2, none⟩] 1 5).map readingTuple).Perm
      (([⟨0, 3 / 2, 2, none⟩] : List DataKV).map readingTuple) := by
  refine ⟨by simp, by simp, ?_, ?_⟩
  · intro r hr
    rw [List.mem_singleton] at hr
    subst hr
    constructor <;> norm_num [round2]
  · exact raw_mode_pass_through [⟨0, 3 / 2, 2, none⟩] 5 (by simp) (by simp)
      (by
        intro r hr
        rw [List.mem_singleton] at hr
        subst hr
        constructor <;> norm_num [round2])

/-- Counterexample to C5 as stated: width-1 aggregation is not an exact
pass-through — a temperature of 1/1000 is rounded to 0 by the per-bucket
`toFixed(2)`, so the output tuples differ from the input tuples. -/
theorem raw_mode_not_pass_through :
    (aggregateReadings [⟨0, 1 / 1000, 50, none⟩] 1 10).map readingTuple
      = [((0 : ℤ), (0 : ℚ), (50 : ℚ))] ∧
    ¬ ((aggregateReadings [⟨0, 1 / 1000, 50, none⟩] 1 10).map readingTuple).Perm
      (([⟨0, 1 / 1000, 50, none⟩] : List DataKV).map readingTuple) := by
  have heval : aggregateReadings [⟨0, 1 / 1000, 50, none⟩] 1 10 = [⟨0, 0, 50, none⟩] := by
    norm_num [aggregateReadings, buildBuckets, addToBuckets, bucketKey, bucketOut, round2,
      Bucket.add, Bucket.empty, devAdd, List.insertionSort, List.orderedInsert, tsDesc]
  constructor
  · rw [heval]
    rfl
  · rw [heval]
    intro hperm
    have h := List.perm_singleton.mp hperm
    simp only [List.map_cons, List.map_nil, readingTuple] at h
    norm_num [Prod.ext_iff] at h
